import Mathlib

set_option maxRecDepth 100000

/-!
Verification of the Base58Check codec and fixed-size secure containers of
`ed25519.hpp` (namespace `ed25519`).  The templated functions
(`base58::encode<N>`, `base58::decode<N>`, `Data<N>`, `keys::*`) are
translated directly from the header.  The out-of-line declarations
(`crc32`, the vector-level `encode`/`decode`) have no definition in the
available sources and are modelled from the specification.
-/

/-- Modelled from the spec: the Base58 alphabet
`123456789ABCDEFGHJKLMNPQRSTUVWXYZabcdefghijkmnopqrstuvwxyz`
used by the out-of-line alphabet codec (not present in the header). -/
def b58Alphabet : List Char :=
  "123456789ABCDEFGHJKLMNPQRSTUVWXYZabcdefghijkmnopqrstuvwxyz".toList

/-- Index scan helper for the alphabet. -/
def charIndexAux (c : Char) : List Char → Nat → Option Nat
  | [], _ => none
  | a :: rest, i => if a == c then some i else charIndexAux c rest (i + 1)

/-- Position of a character in the Base58 alphabet, if any. -/
def b58CharIndex (c : Char) : Option Nat := charIndexAux c b58Alphabet 0

/-- Character for a Base58 digit. -/
def b58Digit (d : Nat) : Char := b58Alphabet.getD d '?'

/-- Big-endian base-`b` digits of `n`, fuel-driven so that it computes. -/
def digitsBEAux (b : Nat) : Nat → Nat → List Nat
  | 0, _ => []
  | fuel + 1, n => if n = 0 then [] else digitsBEAux b fuel (n / b) ++ [n % b]

/-- Big-endian base-`b` digits of `n` (no leading zero digit). -/
def digitsBE (b n : Nat) : List Nat := digitsBEAux b n n

/-- Value of a big-endian digit list in base `b`. -/
def beValue (b : Nat) (ds : List Nat) : Nat := ds.foldl (fun a d => a * b + d) 0

/-- A byte sequence read as a big-endian base-256 integer. -/
def bytesToNat (bs : List Nat) : Nat := beValue 256 bs

/-- One shift-xor round of the reflected CRC-32 bit loop. -/
def crc32Round (c : Nat) : Nat :=
  if c % 2 = 1 then (c >>> 1) ^^^ 0xEDB88320 else c >>> 1

/-- Absorb one byte into the CRC-32 state (eight bit rounds). -/
def crc32Byte (c b : Nat) : Nat := crc32Round^[8] (c ^^^ b)

/-- Modelled from the spec: `base58::crc32` is declared in the header but
defined only in a missing source file; the spec fixes it as the standard
reflected-polynomial (0xEDB88320) CRC-32 with initial value 0xFFFFFFFF and
final complement (ISO-3309 / zlib variant). -/
def crc32 (buf : List Nat) : Nat := (buf.foldl crc32Byte 0xFFFFFFFF) ^^^ 0xFFFFFFFF

/-- The 4 bytes of a 32-bit value in little-endian order
(least-significant byte first), as the spec words it. -/
def littleEndianU32 (c : Nat) : List Nat :=
  [c % 256, c / 2 ^ 8 % 256, c / 2 ^ 16 % 256, c / 2 ^ 24 % 256]

/-- Modelled from the spec: the out-of-line `base58::encode(vector)` —
plain Base58 alphabet encoding.  The bytes form a big-endian base-256
integer re-expressed in base 58; each leading zero byte maps to exactly one
leading `1` character. -/
def base58.encode_vec (data : List Nat) : List Char :=
  List.replicate (data.takeWhile (· == 0)).length '1'
    ++ (digitsBE 58 (bytesToNat data)).map b58Digit

/-- Digit-wise translation of a Base58 string; fails on any character
outside the alphabet. -/
def decodeDigits : List Char → Option (List Nat)
  | [] => some []
  | c :: rest =>
    match b58CharIndex c, decodeDigits rest with
    | some d, some ds => some (d :: ds)
    | _, _ => none

/-- Modelled from the spec: the plain Base58 alphabet decode used by the
out-of-line `base58::decode(string, vector)` — inverse of
`base58.encode_vec`; leading `1` characters reconstruct leading zero
bytes. -/
def base58.decode_raw (s : List Char) : Option (List Nat) :=
  match decodeDigits s with
  | none => none
  | some ds =>
    some (List.replicate (s.takeWhile (· == '1')).length 0
      ++ digitsBE 256 (beValue 58 ds))

/-- Modelled from the spec: the out-of-line Base58Check
`base58::decode(string, vector)` — Base58-decodes the string, fails if the
raw buffer has fewer than 4 bytes, recomputes CRC-32 over the payload and
compares it with the trailing 4 little-endian checksum bytes; on success
returns the payload only. -/
def base58.decode_vec (s : List Char) : Option (List Nat) :=
  match base58.decode_raw s with
  | none => none
  | some bs =>
    if bs.length < 4 then none
    else
      let payload := bs.take (bs.length - 4)
      if bs.drop (bs.length - 4) = littleEndianU32 (crc32 payload) then some payload
      else none

/-- The `ed25519::error` enum. -/
inductive error where
  | BADFORMAT
  | UNEXPECTED_SIZE
  | EMPTY
deriving DecidableEq

/-- Numeric codes of the `ed25519::error` enum. -/
def error.code : error → Nat
  | .BADFORMAT => 1000
  | .UNEXPECTED_SIZE => 1001
  | .EMPTY => 1002

/-- One invocation of the error handler: the enum kind carried by the
`std::error_code` plus the message of its `error_category`. -/
structure ErrEvent where
  kind : error
  msg : String
deriving DecidableEq

/-- The message streamed for the size-mismatch error in
`base58::decode<N>`. -/
def sizeErrMsg (got expected : Nat) : String :=
  "size of decoded vector is not equal to expected size: "
    ++ Nat.repr got ++ " <> " ++ Nat.repr expected

/-- `base58::decode<N>` from the header: runs the vector-level decode; a
failure there reports `BADFORMAT`; a decoded size different from `N`
reports `UNEXPECTED_SIZE` with the observed and expected sizes; otherwise
all `N` bytes of `data` are overwritten with the decoded vector.  Returns
(result, final buffer, handler invocations). -/
def base58.decode (N : Nat) (str : List Char) (data : List Nat) :
    Bool × List Nat × List ErrEvent :=
  match base58.decode_vec str with
  | none => (false, data, [⟨error.BADFORMAT, ""⟩])
  | some v =>
    if v.length ≠ N then
      (false, data, [⟨error.UNEXPECTED_SIZE, sizeErrMsg v.length N⟩])
    else
      (true, v, [])

/-- `base58::encode<N>` from the header: appends the 4 bytes of the CRC-32
of the data, little-endian via shifts and masks, then calls the
vector-level encode. -/
def base58.encode (data : List Nat) : List Char :=
  let c := crc32 data
  base58.encode_vec
    (data ++ [c &&& 0xff, (c >>> 8) &&& 0xff, (c >>> 16) &&& 0xff, (c >>> 24) &&& 0xff])

/-- `Data<N>::clean`: `fill(0)` — every byte of the buffer becomes 0. -/
def Data.clean (d : List Nat) : List Nat := List.replicate d.length 0

/-- The default constructor `Data()`: value-initialized (zero) array,
then `clean()`. -/
def Data.init (N : Nat) : List Nat := Data.clean (List.replicate N 0)

/-- `Data<N>::encode`: delegates to `base58::encode<N>`. -/
def Data.encode (d : List Nat) : List Char := base58.encode d

/-- `Data<N>::decode`: delegates to `base58::decode<N>`. -/
def Data.decode (N : Nat) (str : List Char) (d : List Nat) :
    Bool × List Nat × List ErrEvent :=
  base58.decode N str d

/-- `keys::Seed`, a `Data<32>` (`size::seed = 32`). -/
structure keys.Seed where
  bytes : List Nat
  size_eq : bytes.length = 32

/-- `keys::Public`, a `Data<32>` (`size::public_key = 32`). -/
structure keys.Public where
  bytes : List Nat
  size_eq : bytes.length = 32

/-- `keys::Private`, a `Data<64>` (`size::private_key = 64`). -/
structure keys.Private where
  bytes : List Nat
  size_eq : bytes.length = 64

/-- `Seed::encode`, inherited from `Data<32>`. -/
def keys.Seed.encode (s : keys.Seed) : List Char := Data.encode s.bytes

/-- `Seed::decode`, inherited from `Data<32>`. -/
def keys.Seed.decode (str : List Char) (s : keys.Seed) :
    Bool × List Nat × List ErrEvent :=
  Data.decode 32 str s.bytes

/-- `Public::encode`, inherited from `Data<32>`. -/
def keys.Public.encode (p : keys.Public) : List Char := Data.encode p.bytes

/-- `Public::decode`, inherited from `Data<32>`. -/
def keys.Public.decode (str : List Char) (p : keys.Public) :
    Bool × List Nat × List ErrEvent :=
  Data.decode 32 str p.bytes

/-- `keys::Pair`: a `Public` and a `Private` member. -/
structure keys.Pair where
  publicKey_ : keys.Public
  privateKey_ : keys.Private

/-- `Pair::get_public_key`. -/
def keys.Pair.get_public_key (p : keys.Pair) : keys.Public := p.publicKey_

/-- `Pair::get_private_key`. -/
def keys.Pair.get_private_key (p : keys.Pair) : keys.Private := p.privateKey_

/-- `Pair::clean`: cleans both member buffers. -/
def keys.Pair.clean (p : keys.Pair) : keys.Pair :=
  ⟨⟨Data.clean p.publicKey_.bytes, by simp [Data.clean, p.publicKey_.size_eq]⟩,
   ⟨Data.clean p.privateKey_.bytes, by simp [Data.clean, p.privateKey_.size_eq]⟩⟩

/-- `Pair::~Pair()`: the destructor body is exactly `clean()`. -/
def keys.Pair.destructor (p : keys.Pair) : keys.Pair := p.clean

theorem digitsBEAux_eq (b : Nat) (hb : 2 ≤ b) :
    ∀ fuel n, n ≤ fuel → digitsBEAux b fuel n = (Nat.digits b n).reverse := by
  intro fuel
  induction fuel with
  | zero =>
    intro n hn
    have hz : n = 0 := Nat.le_zero.mp hn
    subst hz
    simp [digitsBEAux]
  | succ fuel ih =>
    intro n hn
    by_cases hz : n = 0
    · subst hz; simp [digitsBEAux]
    · have hpos : 0 < n := Nat.pos_of_ne_zero hz
      have h1b : (1 : Nat) < b := hb
      have hdiv : n / b ≤ fuel :=
        Nat.le_of_lt_succ (lt_of_lt_of_le (Nat.div_lt_self hpos h1b) hn)
      simp only [digitsBEAux, if_neg hz]
      rw [ih (n / b) hdiv, Nat.digits_def' h1b hpos, List.reverse_cons]

theorem digitsBE_eq {b : Nat} (hb : 2 ≤ b) (n : Nat) :
    digitsBE b n = (Nat.digits b n).reverse :=
  digitsBEAux_eq b hb n n (le_refl n)

theorem foldl_beValue (b : Nat) :
    ∀ (l : List Nat) (a : Nat),
      l.foldl (fun a d => a * b + d) a = a * b ^ l.length + Nat.ofDigits b l.reverse
  | [], a => by simp [Nat.ofDigits_nil]
  | d :: t, a => by
    simp only [List.foldl_cons, foldl_beValue b t (a * b + d), List.reverse_cons,
      Nat.ofDigits_append, List.length_reverse, List.length_cons, Nat.ofDigits_singleton]
    ring

theorem beValue_eq (b : Nat) (l : List Nat) : beValue b l = Nat.ofDigits b l.reverse := by
  simpa [beValue] using foldl_beValue b l 0

theorem ofDigits_replicate_zero (b : Nat) : ∀ k, Nat.ofDigits b (List.replicate k 0) = 0
  | 0 => rfl
  | k + 1 => by
    simp [List.replicate_succ, Nat.ofDigits_cons, ofDigits_replicate_zero b k]

theorem b58CharIndex_digit : ∀ d : Nat, d < 58 → b58CharIndex (b58Digit d) = some d := by
  decide

theorem b58Digit_ne_one : ∀ d : Nat, d < 58 → d ≠ 0 → b58Digit d ≠ '1' := by
  decide

theorem b58CharIndex_one : b58CharIndex '1' = some 0 := by decide

theorem decodeDigits_replicate_one_append :
    ∀ (k : Nat) (l : List Char),
      decodeDigits (List.replicate k '1' ++ l)
        = (decodeDigits l).map (fun v => List.replicate k 0 ++ v)
  | 0, l => by cases h : decodeDigits l <;> simp [h]
  | k + 1, l => by
    simp only [List.replicate_succ, List.cons_append, decodeDigits, List.append_eq]
    rw [b58CharIndex_one, decodeDigits_replicate_one_append k l]
    cases h : decodeDigits l <;> simp [h, List.replicate_succ]

theorem decodeDigits_map_digit :
    ∀ (D : List Nat), (∀ d ∈ D, d < 58) → decodeDigits (D.map b58Digit) = some D
  | [], _ => rfl
  | d :: t, h => by
    have hd : d < 58 := h d (List.mem_cons_self d t)
    have ht : ∀ x ∈ t, x < 58 := fun x hx => h x (List.mem_cons_of_mem d hx)
    simp only [List.map_cons, decodeDigits, b58CharIndex_digit d hd,
      decodeDigits_map_digit t ht]

theorem takeWhile_replicate_append {α : Type} (p : α → Bool) (a : α) (hpa : p a = true) :
    ∀ (k : Nat) (l : List α),
      (List.replicate k a ++ l).takeWhile p = List.replicate k a ++ l.takeWhile p
  | 0, l => by simp
  | k + 1, l => by
    simp [List.replicate_succ, List.takeWhile_cons_of_pos hpa,
      takeWhile_replicate_append p a hpa k l]

theorem decode_raw_encode_vec (bs : List Nat) (h : ∀ x ∈ bs, x < 256) :
    base58.decode_raw (base58.encode_vec bs) = some bs := by
  classical
  have hsplit : bs.takeWhile (· == 0) ++ bs.dropWhile (· == 0) = bs :=
    List.takeWhile_append_dropWhile (· == 0) bs
  have htw : bs.takeWhile (· == 0) = List.replicate (bs.takeWhile (· == 0)).length 0 := by
    apply List.eq_replicate_of_mem
    intro x hx
    have := List.mem_takeWhile_imp hx
    simpa using this
  set k := (bs.takeWhile (· == 0)).length with hk
  set bs' := bs.dropWhile (· == 0) with hbs'
  have hsplit' : List.replicate k 0 ++ bs' = bs := by rw [← htw]; exact hsplit
  have hhead : ∀ x, bs'.head? = some x → x ≠ 0 := by
    intro x hx
    have h3 := List.head?_dropWhile_not (fun y => y == (0 : Nat)) bs
    rw [← hbs'] at h3
    rw [hx] at h3
    simpa using h3
  have hlt' : ∀ d ∈ bs'.reverse, d < 256 := by
    intro d hd
    apply h
    rw [← hsplit']
    exact List.mem_append_right _ (List.mem_reverse.mp hd)
  have hlast : ∀ hne : bs'.reverse ≠ [], (bs'.reverse).getLast hne ≠ 0 := by
    intro hne
    have h2 : (bs'.reverse).getLast? = bs'.head? := List.getLast?_reverse bs'
    have h4 : (bs'.reverse).getLast? = some ((bs'.reverse).getLast hne) :=
      List.getLast?_eq_getLast _ hne
    apply hhead
    rw [← h2, h4]
  have hn : bytesToNat bs = Nat.ofDigits 256 bs'.reverse := by
    rw [bytesToNat, beValue_eq 256 bs, ← hsplit']
    simp [List.reverse_append, Nat.ofDigits_append, ofDigits_replicate_zero]
  have hdig : Nat.digits 256 (bytesToNat bs) = bs'.reverse := by
    rw [hn]
    exact Nat.digits_ofDigits 256 (by norm_num) _ hlt' hlast
  have hDBE256 : digitsBE 256 (bytesToNat bs) = bs' := by
    rw [digitsBE_eq (by norm_num), hdig, List.reverse_reverse]
  have hD58 : digitsBE 58 (bytesToNat bs) = (Nat.digits 58 (bytesToNat bs)).reverse :=
    digitsBE_eq (by norm_num) _
  have hD58lt : ∀ d ∈ digitsBE 58 (bytesToNat bs), d < 58 := by
    intro d hd
    rw [hD58] at hd
    exact Nat.digits_lt_base (by norm_num) (List.mem_reverse.mp hd)
  have htwD : ((digitsBE 58 (bytesToNat bs)).map b58Digit).takeWhile (· == '1') = [] := by
    cases hD : digitsBE 58 (bytesToNat bs) with
    | nil => simp
    | cons d0 rest =>
      have hd0mem : d0 ∈ digitsBE 58 (bytesToNat bs) := by
        rw [hD]; exact List.mem_cons_self _ _
      have hd0lt : d0 < 58 := hD58lt d0 hd0mem
      have hne : Nat.digits 58 (bytesToNat bs) ≠ [] := by
        intro hnil
        rw [hD58, hnil] at hD
        simp at hD
      have hnz : bytesToNat bs ≠ 0 := Nat.digits_ne_nil_iff_ne_zero.mp hne
      have h6 : (Nat.digits 58 (bytesToNat bs)).reverse.head? = some d0 := by
        rw [← hD58, hD]; rfl
      rw [List.head?_reverse] at h6
      have h8 : (Nat.digits 58 (bytesToNat bs)).getLast? =
          some ((Nat.digits 58 (bytesToNat bs)).getLast
            (Nat.digits_ne_nil_iff_ne_zero.mpr hnz)) :=
        List.getLast?_eq_getLast _ _
      rw [h8] at h6
      have h9 : (Nat.digits 58 (bytesToNat bs)).getLast
          (Nat.digits_ne_nil_iff_ne_zero.mpr hnz) = d0 := Option.some.inj h6
      have hd0 : d0 ≠ 0 := by
        rw [← h9]
        exact Nat.getLast_digit_ne_zero 58 hnz
      have hnotone : (b58Digit d0 == '1') = false :=
        beq_eq_false_iff_ne.mpr (b58Digit_ne_one d0 hd0lt hd0)
      simp [List.takeWhile_cons_of_neg, hnotone]
  simp only [base58.encode_vec, base58.decode_raw, ← hk]
  rw [decodeDigits_replicate_one_append, decodeDigits_map_digit _ hD58lt]
  simp only [Option.map_some']
  rw [takeWhile_replicate_append (· == '1') '1' rfl, htwD]
  simp only [List.append_nil, List.length_replicate]
  rw [beValue_eq]
  simp only [List.reverse_append, List.reverse_replicate]
  rw [hD58, List.reverse_reverse, Nat.ofDigits_append, ofDigits_replicate_zero,
    Nat.ofDigits_digits]
  rw [Nat.mul_zero, Nat.add_zero, hDBE256, hsplit']

theorem crc_shift_bytes (c : Nat) :
    [c &&& 0xff, (c >>> 8) &&& 0xff, (c >>> 16) &&& 0xff, (c >>> 24) &&& 0xff]
      = littleEndianU32 c := by
  have h255 : (0xff : Nat) = 2 ^ 8 - 1 := by norm_num
  simp only [littleEndianU32, h255, Nat.and_pow_two_sub_one_eq_mod,
    Nat.shiftRight_eq_div_pow]
  try norm_num

theorem le_bytes_lt (c : Nat) : ∀ x ∈ littleEndianU32 c, x < 256 := by
  intro x hx
  have hor : x = c % 256 ∨ x = c / 2 ^ 8 % 256 ∨ x = c / 2 ^ 16 % 256
      ∨ x = c / 2 ^ 24 % 256 := by
    simpa [littleEndianU32] using hx
  have hm : ∀ y : Nat, y % 256 < 256 := fun y => Nat.mod_lt _ (by norm_num)
  rcases hor with rfl | rfl | rfl | rfl <;> exact hm _

theorem decode_vec_encode (bs : List Nat) (h : ∀ x ∈ bs, x < 256) :
    base58.decode_vec (base58.encode bs) = some bs := by
  have hall : ∀ x ∈ bs ++ littleEndianU32 (crc32 bs), x < 256 := by
    intro x hx
    rcases List.mem_append.mp hx with h1 | h2
    · exact h x h1
    · exact le_bytes_lt _ x h2
  have hL : (bs ++ littleEndianU32 (crc32 bs)).length = bs.length + 4 := by
    simp [littleEndianU32]
  simp only [base58.encode, base58.decode_vec]
  rw [crc_shift_bytes, decode_raw_encode_vec _ hall]
  have h4 : ¬ (bs ++ littleEndianU32 (crc32 bs)).length < 4 := by omega
  simp only [h4, if_false]
  have htake : (bs ++ littleEndianU32 (crc32 bs)).take
      ((bs ++ littleEndianU32 (crc32 bs)).length - 4) = bs := by
    apply List.take_left'
    omega
  have hdrop : (bs ++ littleEndianU32 (crc32 bs)).drop
      ((bs ++ littleEndianU32 (crc32 bs)).length - 4) = littleEndianU32 (crc32 bs) := by
    apply List.drop_left'
    omega
  simp only [htake, hdrop]
  simp

/-- C1: for every byte buffer of size N ∈ {32, 64}, the fixed-size
Base58Check encode followed by the fixed-size decode into an N-byte
container succeeds and reproduces exactly the original bytes. -/
theorem base58_roundtrip_fixed :
    ∀ N : Nat, N = 32 ∨ N = 64 →
      ∀ bs : List Nat, bs.length = N → (∀ x ∈ bs, x < 256) →
        ∀ d : List Nat, base58.decode N (base58.encode bs) d = (true, bs, []) := by
  intro N _ bs hlen hbytes d
  simp only [base58.decode]
  rw [decode_vec_encode bs hbytes]
  simp [hlen]

/-- Witness for C1 at N = 32 on the all-zero buffer. -/
theorem base58_roundtrip_fixed_witness :
    base58.decode 32 (base58.encode (List.replicate 32 0)) (List.replicate 32 9)
      = (true, List.replicate 32 0, []) :=
  base58_roundtrip_fixed 32 (Or.inl rfl) (List.replicate 32 0) (by decide) (by decide) _

/-- C2 counterexample: the string "1" Base58-decodes to the single byte
buffer [0] (fewer than 4 bytes), yet the fixed-size decode hands the
error handler BADFORMAT (1000), not EMPTY (1002): the vector-level decode
only reports a boolean, and `base58::decode<N>` maps every such failure
to BADFORMAT. -/
theorem decode_short_kind_cex :
    base58.decode_raw [('1' : Char)] = some [0]
      ∧ ([0] : List Nat).length < 4
      ∧ (base58.decode 32 [('1' : Char)] (List.replicate 32 0)).2.2
          = [⟨error.BADFORMAT, ""⟩]
      ∧ error.BADFORMAT ≠ error.EMPTY
      ∧ error.BADFORMAT.code = 1000 ∧ error.EMPTY.code = 1002 := by
  decide

/-- C2 amended: for every string whose Base58 decoding yields fewer than
4 raw bytes, the fixed-size decode fails and the handler receives kind
BADFORMAT (error code 1000). -/
theorem decode_short_reports_badformat :
    ∀ (N : Nat) (s : List Char) (d v : List Nat),
      base58.decode_raw s = some v → v.length < 4 →
        base58.decode N s d = (false, d, [⟨error.BADFORMAT, ""⟩]) := by
  intro N s d v hraw hlt
  simp only [base58.decode, base58.decode_vec, hraw]
  simp [if_pos hlt]

/-- Witness for the amended C2 on the string "1". -/
theorem decode_short_reports_badformat_witness :
    base58.decode 32 [('1' : Char)] (List.replicate 32 0)
      = (false, List.replicate 32 0, [⟨error.BADFORMAT, ""⟩]) :=
  decode_short_reports_badformat 32 [('1' : Char)] (List.replicate 32 0) [0]
    (by decide) (by decide)

/-- C3: the fixed-size decode is all-or-nothing: on failure the buffer is
returned exactly as it was; on success the buffer is exactly the decoded
payload, which has length N. -/
theorem decode_sized_all_or_nothing :
    ∀ (N : Nat) (s : List Char) (d : List Nat),
      ((base58.decode N s d).1 = false → (base58.decode N s d).2.1 = d)
        ∧ ((base58.decode N s d).1 = true →
            ∃ v, base58.decode_vec s = some v ∧ v.length = N
              ∧ (base58.decode N s d).2.1 = v) := by
  intro N s d
  simp only [base58.decode]
  cases hv : base58.decode_vec s with
  | none => simp
  | some v =>
    by_cases hne : v.length ≠ N
    · simp [hne]
    · have hlen : v.length = N := not_ne_iff.mp hne
      simp only [if_neg hne]
      refine ⟨by simp, fun _ => ⟨v, rfl, hlen, by simp⟩⟩

/-- Witness for C3: a failing decode (character outside the alphabet)
leaves the buffer untouched. -/
theorem decode_sized_all_or_nothing_witness :
    (base58.decode 32 [('?' : Char)] (List.replicate 32 7)).2.1
      = List.replicate 32 7 :=
  (decode_sized_all_or_nothing 32 [('?' : Char)] (List.replicate 32 7)).1 (by decide)

/-- C4: `base58::encode<N>` equals the plain Base58 alphabet encoding of
the payload followed by the 4 bytes of its CRC-32 in little-endian
order. -/
theorem encode_fixed_appends_crc_le :
    ∀ data : List Nat,
      base58.encode data = base58.encode_vec (data ++ littleEndianU32 (crc32 data)) := by
  intro data
  simp only [base58.encode]
  rw [crc_shift_bytes]

/-- C5: when the Base58Check decode succeeds with a payload of length
different from N, the fixed-size decode fails, leaves the buffer
untouched, and reports UNEXPECTED_SIZE (1001) with a message containing
both the observed and the expected length. -/
theorem decode_sized_unexpected_size :
    ∀ (N : Nat) (s : List Char) (d v : List Nat),
      base58.decode_vec s = some v → v.length ≠ N →
        base58.decode N s d
            = (false, d, [⟨error.UNEXPECTED_SIZE, sizeErrMsg v.length N⟩])
          ∧ (∃ a b : String,
              sizeErrMsg v.length N = a ++ Nat.repr v.length ++ b ++ Nat.repr N)
          ∧ error.UNEXPECTED_SIZE.code = 1001 := by
  intro N s d v hv hne
  refine ⟨?_, ⟨"size of decoded vector is not equal to expected size: ", " <> ", rfl⟩, rfl⟩
  simp only [base58.decode, hv]
  simp [hne]

/-- Witness for C5: a 1-byte payload decoded into a 32-byte container. -/
theorem decode_sized_unexpected_size_witness :
    base58.decode 32 (base58.encode [0]) (List.replicate 32 0)
      = (false, List.replicate 32 0, [⟨error.UNEXPECTED_SIZE, sizeErrMsg 1 32⟩]) :=
  (decode_sized_unexpected_size 32 (base58.encode [0]) (List.replicate 32 0) [0]
    (by decide) (by decide)).1

/-- C6: the fixed-size decode invokes the handler exactly once when it
returns false and never when it returns true (so false ↔ handler
invoked). -/
theorem decode_sized_error_count :
    ∀ (N : Nat) (s : List Char) (d : List Nat),
      ((base58.decode N s d).2.2).length = cond (base58.decode N s d).1 0 1 := by
  intro N s d
  simp only [base58.decode]
  cases base58.decode_vec s with
  | none => simp
  | some v => by_cases hne : v.length ≠ N <;> simp [hne]

/-- C7: a default-constructed `Data<N>` is all zeros; `clean()` zero-fills
all N bytes, is total, and is idempotent. -/
theorem data_clean_zeroes :
    ∀ (N : Nat) (d : List Nat),
      Data.init N = List.replicate N 0
        ∧ Data.clean d = List.replicate d.length 0
        ∧ Data.clean (Data.clean d) = Data.clean d := by
  intro N d
  refine ⟨?_, rfl, ?_⟩ <;> simp [Data.init, Data.clean]

/-- C8: `Pair::clean` zero-fills the 32-byte public and the 64-byte
private member buffers, and the destructor performs exactly this wipe. -/
theorem pair_clean_zeroes :
    ∀ p : keys.Pair,
      (keys.Pair.clean p).get_public_key.bytes = List.replicate 32 0
        ∧ (keys.Pair.clean p).get_private_key.bytes = List.replicate 64 0
        ∧ keys.Pair.destructor p = keys.Pair.clean p := by
  intro p
  refine ⟨?_, ?_, rfl⟩ <;>
    simp [keys.Pair.clean, keys.Pair.get_public_key, keys.Pair.get_private_key,
      Data.clean, p.publicKey_.size_eq, p.privateKey_.size_eq]

/-- C9: CRC-32 of the empty sequence is 0 and of the ASCII bytes of
"123456789" is 0xCBF43926, the standard ISO-3309 / zlib reference
vector. -/
theorem crc32_reference_vectors :
    crc32 [] = 0 ∧ crc32 ("123456789".toList.map Char.toNat) = 0xCBF43926 := by
  decide

theorem decode_fst_indep (N : Nat) (s : List Char) (d d' : List Nat) :
    (base58.decode N s d).1 = (base58.decode N s d').1 := by
  simp only [base58.decode]
  cases base58.decode_vec s with
  | none => rfl
  | some v => by_cases hne : v.length ≠ N <;> simp [hne]

theorem decode_payload_indep (N : Nat) (s : List Char) (d d' : List Nat) :
    (base58.decode N s d).1 = true →
      (base58.decode N s d).2.1 = (base58.decode N s d').2.1 := by
  simp only [base58.decode]
  cases base58.decode_vec s with
  | none => intro h; exact absurd h (by simp)
  | some v => by_cases hne : v.length ≠ N <;> simp [hne]

/-- C10: the wire format carries no domain separation between Seed and
Public: equal bytes encode to the identical string, and any string
decodes with the same outcome and the same payload for both types. -/
theorem seed_public_no_domain_separation :
    ∀ (s : keys.Seed) (p : keys.Public) (str : List Char),
      (s.bytes = p.bytes → keys.Seed.encode s = keys.Public.encode p)
        ∧ (keys.Seed.decode str s).1 = (keys.Public.decode str p).1
        ∧ ((keys.Seed.decode str s).1 = true →
            (keys.Seed.decode str s).2.1 = (keys.Public.decode str p).2.1) := by
  intro s p str
  refine ⟨fun h => by simp [keys.Seed.encode, keys.Public.encode, h], ?_, ?_⟩
  · exact decode_fst_indep 32 str s.bytes p.bytes
  · exact decode_payload_indep 32 str s.bytes p.bytes

/-- Witness for C10: a Seed and a Public holding the same 32 zero bytes
produce the identical encoded string. -/
theorem seed_public_no_domain_separation_witness :
    keys.Seed.encode ⟨List.replicate 32 0, by decide⟩
      = keys.Public.encode ⟨List.replicate 32 0, by decide⟩ :=
  (seed_public_no_domain_separation ⟨List.replicate 32 0, by decide⟩
    ⟨List.replicate 32 0, by decide⟩ []).1 rfl
